import Mathlib

/-!
Verification development for the `libblupkg` core: a SemVer value/range model
(`src/libblupkg/semver.py`), dependency-record invariants and lock loading
(`src/libblupkg/environment.py`), and a generic schema-driven decoder
(`src/libblupkg/unpack_dataclass.py`).

Python semantics are shallowly embedded: strings are Lean `String`/`List Char`,
Python ints arising from digit strings are `Nat` (they are never negative here),
fallible code returns `Option`/`Except`, and exceptions of interest are explicit
error values.
-/

/-! ## Character classes of `SEM_VER_RE` (semver.py lines 6-9)

The regex character class written as a raw string is
`[0-9A-Z-a-z\-\.]` which (reading the class items left to right) consists of the
ranges 0-9, A-Z, a-z together with the literal characters hyphen and dot.
The digit class is `\d` restricted to ASCII digits, which is what the inputs of
interest contain.
-/

def isDigitC (c : Char) : Bool := '0' ≤ c && c ≤ '9'

/-- Membership in the regex class `[0-9A-Z-a-z\-\.]` used for both the
prerelease and the build-metadata segment of `SEM_VER_RE`. -/
def isIdentC (c : Char) : Bool :=
  isDigitC c || ('A' ≤ c && c ≤ 'Z') || ('a' ≤ c && c ≤ 'z') || c = '-' || c = '.'

/-- Python `int` applied to a string of ASCII digits (leading zeros allowed),
as used by `SemVerExact.parse` on the regex groups. -/
def natOfDigits (cs : List Char) : Nat :=
  cs.foldl (fun a c => 10 * a + (c.toNat - '0'.toNat)) 0

/-- Python `str.split(".")`, on a character list: splits at every dot and keeps
empty pieces, so the result is always non-empty and splitting the empty string
yields one empty piece (as `"".split(".") == [""]` does in Python). -/
def splitOnDot : List Char → List (List Char)
  | [] => [[]]
  | '.' :: rest => [] :: splitOnDot rest
  | c :: rest =>
    match splitOnDot rest with
    | h :: t => (c :: h) :: t
    | [] => [[c]]

/-! ## `SemVerExact` (semver.py lines 11-124) -/

/-- A prerelease identifier as stored by `SemVerExact.parse`: Python keeps it
as `int` when `ident.isdigit()` and as `str` otherwise, so the field type is
`Tuple[Union[str, int], ...]`. -/
inductive PreId where
  | num : Nat → PreId
  | str : String → PreId
deriving DecidableEq, Repr

/-- The frozen dataclass `SemVerExact` (semver.py lines 11-17). -/
structure SemVerExact where
  major : Nat
  minor : Nat
  patch : Nat
  prerelease : List PreId := []
  build_metadata : List String := []
deriving DecidableEq, Repr

/-- Python `str.__lt__`: lexicographic comparison of the code-point
sequences. -/
def listCharLtb : List Char → List Char → Bool
  | [], [] => false
  | [], _ :: _ => true
  | _ :: _, [] => false
  | c :: cs, d :: ds => if c = d then listCharLtb cs ds else decide (c.toNat < d.toNat)

/-- Python `<` on one pair of unequal prerelease identifiers, as in the loop of
`SemVerExact.__lt__` (semver.py lines 69-83): two ints compare numerically, two
strings compare lexically in code-point order, and an int is always lower than
a string. -/
def preIdLt : PreId → PreId → Bool
  | .num a, .num b => decide (a < b)
  | .num _, .str _ => true
  | .str _, .num _ => false
  | .str a, .str b => listCharLtb a.toList b.toList

/-- The prerelease-tuple comparison of `SemVerExact.__lt__` (semver.py lines
67-88): walk `zip(self.prerelease, other.prerelease, strict=False)` until the
first unequal pair and decide by `preIdLt`; if the shared prefix is identical,
the shorter tuple is lower. -/
def preListLt : List PreId → List PreId → Bool
  | [], [] => false
  | [], _ :: _ => true
  | _ :: _, [] => false
  | a :: as, b :: bs => if a = b then preListLt as bs else preIdLt a b

/-- Python tuple comparison `(major, minor, patch) < (other.major, other.minor,
other.patch)` from `SemVerExact.__lt__` (semver.py lines 50-55). -/
def mmpLt (x y : SemVerExact) : Prop :=
  x.major < y.major ∨
    (x.major = y.major ∧
      (x.minor < y.minor ∨ (x.minor = y.minor ∧ x.patch < y.patch)))

instance (x y : SemVerExact) : Decidable (mmpLt x y) :=
  inferInstanceAs (Decidable (x.major < y.major ∨
    (x.major = y.major ∧
      (x.minor < y.minor ∨ (x.minor = y.minor ∧ x.patch < y.patch)))))

/-- `SemVerExact.__lt__` (semver.py lines 19-88). The leading `isinstance`
guard is vacuous in the typed embedding. -/
def semVerLt (x y : SemVerExact) : Bool :=
  if mmpLt x y then true
  else if mmpLt y x then false
  else if x.prerelease ≠ [] ∧ y.prerelease = [] then true
  else if y.prerelease ≠ [] ∧ x.prerelease = [] then false
  else if x.prerelease = [] ∧ y.prerelease = [] then false
  else preListLt x.prerelease y.prerelease

/-- Rendering of one prerelease identifier by Python `str(x)` inside
`SemVerExact.__str__`. -/
def PreId.render : PreId → String
  | .num n => toString n
  | .str s => s

/-- Python `".".join(parts)`. -/
def joinDots : List String → String
  | [] => ""
  | [x] => x
  | x :: xs => x ++ "." ++ joinDots xs

/-- `SemVerExact.__str__` (semver.py lines 90-96): the canonical rendering
`major.minor.patch[-id.id...][+id.id...]`, where the prerelease and
build-metadata parts are emitted only when the tuples are non-empty (Python
truthiness of a tuple). -/
def SemVerExact.format (v : SemVerExact) : String :=
  (toString v.major ++ "." ++ toString v.minor ++ "." ++ toString v.patch)
    ++ (if v.prerelease ≠ [] then "-" ++ joinDots (v.prerelease.map PreId.render) else "")
    ++ (if v.build_metadata ≠ [] then "+" ++ joinDots v.build_metadata else "")

/-- Classification of one prerelease identifier by `SemVerExact.parse`
(semver.py lines 107-113): an empty identifier raises `ValueError`, an
all-digit identifier is stored as `int(ident)`, anything else as the string. -/
def classifyIdent (ident : List Char) : Option PreId :=
  if ident = [] then none
  else if ident.all isDigitC then some (.num (natOfDigits ident))
  else some (.str ident.asString)

/-- The loop of `SemVerExact.parse` building the prerelease tuple: fails on the
first empty identifier. -/
def buildPrerelease : List (List Char) → Option (List PreId)
  | [] => some []
  | i :: rest =>
    match classifyIdent i with
    | none => none
    | some p => (buildPrerelease rest).map (fun ps => p :: ps)

/-- The tail of `SemVerExact.parse` after the regex has matched (semver.py
lines 104-124). `pre`/`bld` are the captured groups without their leading
`-`/`+` (Python applies `removeprefix`), `none` when the group was absent.
An absent group becomes the empty string, exactly as
`(match.group(...) or "-").removeprefix("-")` does, and is then split on dots
like any other value; this is what makes `parse` reject every version string
with no prerelease part, and store `("",)` as build metadata when the build
group is absent. -/
def finishParse (a b c : Nat) (pre bld : Option (List Char)) : Option SemVerExact :=
  match buildPrerelease (splitOnDot (pre.getD [])) with
  | none => none
  | some pids =>
    some { major := a, minor := b, patch := c, prerelease := pids,
           build_metadata := (splitOnDot (bld.getD [])).map List.asString }

/-- End-of-match test for the regex anchor `$` under Python `re`: `$` matches
at the end of the string and also just before one trailing newline. -/
def atEnd (r : List Char) : Bool := r = [] || r = ['\n']

/-- Matching of the optional `(?P<prerelease_str>...)?(?P<build_metadata_str>...)?$`
part of `SEM_VER_RE` against the remaining input after `MAJOR.MINOR.PATCH`. Both
segment classes exclude `+`, so greedy matching is equivalent to this
deterministic scan. -/
def parseTail (a b c : Nat) (r : List Char) : Option SemVerExact :=
  match r with
  | '-' :: rest =>
    match rest.takeWhile isIdentC, rest.dropWhile isIdentC with
    | [], _ => none
    | pre, '+' :: rest2 =>
      match rest2.takeWhile isIdentC, rest2.dropWhile isIdentC with
      | [], _ => none
      | bld, r3 => if atEnd r3 then finishParse a b c (some pre) (some bld) else none
    | pre, r2 => if atEnd r2 then finishParse a b c (some pre) none else none
  | '+' :: rest =>
    match rest.takeWhile isIdentC, rest.dropWhile isIdentC with
    | [], _ => none
    | bld, r2 => if atEnd r2 then finishParse a b c none (some bld) else none
  | r => if atEnd r then finishParse a b c none none else none

/-- `SemVerExact.parse` (semver.py lines 98-124) on the character list of the
input: match `^\d+\.\d+\.\d+` deterministically (equivalent to the anchored
greedy regex), then hand the rest to `parseTail`. `none` stands for the
`ValueError` the Python code raises. -/
def parseVersionCore (cs : List Char) : Option SemVerExact :=
  match cs.takeWhile isDigitC, cs.dropWhile isDigitC with
  | [], _ => none
  | d1, '.' :: r2 =>
    match r2.takeWhile isDigitC, r2.dropWhile isDigitC with
    | [], _ => none
    | d2, '.' :: r4 =>
      match r4.takeWhile isDigitC, r4.dropWhile isDigitC with
      | [], _ => none
      | d3, r5 => parseTail (natOfDigits d1) (natOfDigits d2) (natOfDigits d3) r5
    | _, _ => none
  | _, _ => none

/-- `SemVerExact.parse` (semver.py lines 98-124). -/
def SemVerExact.parse (s : String) : Option SemVerExact :=
  parseVersionCore s.toList

/-! ## `SemVerRange` (semver.py lines 127-158) -/

/-- The dataclass `SemVerRange`: an inclusive-min, exclusive-max range of
SemVers (semver.py lines 127-134). The constructor enforces nothing. -/
structure SemVerRange where
  min : SemVerExact
  max : SemVerExact
deriving DecidableEq, Repr

/-- Matching of the `\.(?P<patch>\d+)` group of `PERMISSIVE_SEMVER` after its
dot: a non-empty digit run that must reach the anchor `$`. -/
def permTail3 (a b : Nat) (r4 : List Char) : Option (Nat × Nat × Nat) :=
  if r4.takeWhile isDigitC = [] then none
  else if atEnd (r4.dropWhile isDigitC) then
    some (a, b, natOfDigits (r4.takeWhile isDigitC))
  else none

/-- After the `MINOR` digits: either the optional patch group follows (a dot
then digits) or the anchor `$` must match. -/
def permTail2b (a b : Nat) : List Char → Option (Nat × Nat × Nat)
  | '.' :: r4 => permTail3 a b r4
  | r3 => if atEnd r3 then some (a, b, 0) else none

/-- Matching of the `\.(?P<minor>\d+)(...)?` group of `PERMISSIVE_SEMVER`
after its dot: a non-empty digit run, then `permTail2b`. -/
def permTail2 (a : Nat) (r2 : List Char) : Option (Nat × Nat × Nat) :=
  if r2.takeWhile isDigitC = [] then none
  else permTail2b a (natOfDigits (r2.takeWhile isDigitC)) (r2.dropWhile isDigitC)

/-- After the `MAJOR` digits: either the optional minor group follows (a dot
then digits) or the anchor `$` must match. -/
def permTail1 (a : Nat) : List Char → Option (Nat × Nat × Nat)
  | '.' :: r2 => permTail2 a r2
  | r1 => if atEnd r1 then some (a, 0, 0) else none

/-- Matching of `PERMISSIVE_SEMVER`, the anchored regex
`^(?P<major>\d+)(\.(?P<minor>\d+)(\.(?P<patch>\d+))?)?$` of
`SemVerRange.parse` (semver.py line 138), returning the three captured digit
groups as numbers with missing groups defaulted to 0 (semver.py lines
142-144). The anchored greedy regex is equivalent to this deterministic
maximal-munch scan (each digit group is a maximal digit run, each dot is
consumed literally, and no backtracking can help because a shorter digit run
leaves a digit where only a dot or the anchor may appear); `$` also matches
before one trailing newline (`atEnd`). -/
def parsePermissive (cs : List Char) : Option (Nat × Nat × Nat) :=
  if cs.takeWhile isDigitC = [] then none
  else permTail1 (natOfDigits (cs.takeWhile isDigitC)) (cs.dropWhile isDigitC)

/-- `SemVerRange.parse` (semver.py lines 136-157): on a permissive match,
build the caret-style compatible range; otherwise raise (here: `none`). -/
def SemVerRange.parse (s : String) : Option SemVerRange :=
  match parsePermissive s.toList with
  | some (major, minor, patch) =>
    if major == 0 then
      some ⟨⟨0, minor, patch, [], []⟩, ⟨0, minor + 1, 0, [], []⟩⟩
    else
      some ⟨⟨major, minor, patch, [], []⟩, ⟨major + 1, 0, 0, [], []⟩⟩
  | none => none

/-- The range constructed by `SemVerRange.parse` from the three parsed numbers
(semver.py lines 146-155), named for use in specification statements. -/
def compatRange (a b c : Nat) : SemVerRange :=
  if a = 0 then ⟨⟨0, b, c, [], []⟩, ⟨0, b + 1, 0, [], []⟩⟩
  else ⟨⟨a, b, c, [], []⟩, ⟨a + 1, 0, 0, [], []⟩⟩

/-- Modelled from the spec: the repository has no `compare` function; the spec
(sections 4.1 and 6) describes `compare(a, b) -> Ordering` as the total order
induced by `SemVerExact.__lt__`, so it is realised on top of the embedded
`semVerLt` with the conventional negative/zero/positive encoding. -/
def compareExact (a b : SemVerExact) : Int :=
  if semVerLt a b then -1 else if semVerLt b a then 1 else 0

/-- Modelled from the spec: `SemVerRange.contains` is absent from
`src/libblupkg/semver.py`; section 4.2 of the spec defines
`contains(range, version)` as
`compare(range.min, version) <= 0 && compare(version, range.max) < 0`. -/
def SemVerRange.contains (r : SemVerRange) (v : SemVerExact) : Bool :=
  decide (compareExact r.min v ≤ 0) && decide (compareExact v r.max < 0)

/-! ## `BlupkgDep` (environment.py lines 29-81) -/

/-- The dataclass `BlupkgDep` (environment.py lines 29-68): all six dependency
fields are `Optional[str]` defaulting to `None`, plus an `optional` flag. The
constructor-time invariant lives in `BlupkgDep.postInitOk` below. -/
structure BlupkgDep where
  git : Option String := none
  path : Option String := none
  version : Option String := none
  rev : Option String := none
  tag : Option String := none
  branch : Option String := none
  optional : Bool := false
deriving DecidableEq, Repr

/-- Python truthiness of an `Optional[str]` field: `None` and the empty string
are falsy. -/
def truthy : Option String → Bool
  | none => false
  | some s => !s.isEmpty

/-- `sum((1 if d else 0) for d in discriminators)` over
`(version, rev, tag, branch)` (environment.py lines 76-77). -/
def selCount (d : BlupkgDep) : Nat :=
  (if truthy d.version then 1 else 0) + (if truthy d.rev then 1 else 0)
    + (if truthy d.tag then 1 else 0) + (if truthy d.branch then 1 else 0)

/-- `BlupkgDep.__post_init__` (environment.py lines 70-81): `true` when the
constructor succeeds, `false` when it raises `ValueError` (the spec's
`DependencySpecConflict`), with the checks in source order. -/
def BlupkgDep.postInitOk (d : BlupkgDep) : Bool :=
  if truthy d.git && truthy d.path then false
  else if !truthy d.git && !truthy d.path then false
  else if decide (selCount d ≠ 0) && truthy d.path then false
  else if selCount d ≠ 1 then false
  else true

/-! ## Lock loading (environment.py lines 110-146) -/

/-- A value as produced by `tomllib.load` for one key. Floats and dates, which
TOML can also produce, are outside the model; no claim depends on them. -/
inductive TomlVal where
  | int : Int → TomlVal
  | str : String → TomlVal
  | bool : Bool → TomlVal
  | table : List (String × TomlVal) → TomlVal
  | arr : List TomlVal → TomlVal

/-- The Python exception class raised by a failed `int(...)` coercion. -/
inductive PyExc where
  | valueError
  | typeError
deriving DecidableEq, Repr

/-- Python whitespace stripped by `int(str)`. -/
def isPySpace (c : Char) : Bool :=
  c = ' ' || c = '\t' || c = '\n' || c = '\r' || c = '\x0b' || c = '\x0c'

/-- Digit scan of Python `int(str)` after the sign: digits with single
underscores allowed between digits. -/
def pyDigitsAfter (acc : Nat) : List Char → Option Nat
  | [] => some acc
  | '_' :: c :: rest =>
    if isDigitC c then pyDigitsAfter (10 * acc + (c.toNat - '0'.toNat)) rest else none
  | c :: rest =>
    if isDigitC c then pyDigitsAfter (10 * acc + (c.toNat - '0'.toNat)) rest else none

/-- Nonempty digit sequence for Python `int(str)`. -/
def pyDigits : List Char → Option Nat
  | c :: rest => if isDigitC c then pyDigitsAfter (c.toNat - '0'.toNat) rest else none
  | [] => none

/-- Python `int(s)` for a string `s`: strip whitespace, optional sign, base-10
digits (underscore separators allowed); raises `ValueError` otherwise. -/
def pyIntOfStr (s : String) : Option Int :=
  let cs := ((s.toList.dropWhile isPySpace).reverse.dropWhile isPySpace).reverse
  match cs with
  | '+' :: rest => (pyDigits rest).map Int.ofNat
  | '-' :: rest => (pyDigits rest).map (fun n => -(n : Int))
  | rest => (pyDigits rest).map Int.ofNat

/-- Python `int(x)` on a TOML-produced value: ints pass through, booleans
coerce to 0/1, strings are parsed (ValueError on failure), containers raise
`TypeError`. -/
def pyInt : TomlVal → Except PyExc Int
  | .int n => .ok n
  | .bool b => .ok (if b then 1 else 0)
  | .str s =>
    match pyIntOfStr s with
    | some n => .ok n
    | none => .error .valueError
  | .table _ => .error .typeError
  | .arr _ => .error .typeError

/-- The supported lock format constant, `BlupkgLock.version = 1`
(environment.py line 113). -/
def blupkgLockVersion : Int := 1

/-- Outcome of the lock-version check inside `load_blupkg_environment`. -/
inductive LockOutcome where
  | absent
  | decoded
  | fatal
  | typeError
deriving DecidableEq, Repr

/-- Assoc-list lookup standing for Python `dict.get(key, None)` (TOML tables
have unique keys). -/
def lookupToml : List (String × TomlVal) → String → Option TomlVal
  | [], _ => none
  | (k, v) :: rest, n => if k = n then some v else lookupToml rest n

/-- The lock-version check of `load_blupkg_environment` (environment.py lines
128-142) on an already-parsed `Blupkg.lock` table: a missing `version` key or
a failed `int()` coercion (caught `ValueError`) leaves the lock absent; a
coerced value below `BlupkgLock.version` leaves it absent as outdated; above
raises the fatal `RuntimeError`; equal proceeds to decode the lock. An
uncaught `TypeError` from `int()` (e.g. on an array value) propagates. -/
def loadLockOutcome (lockDict : List (String × TomlVal)) : LockOutcome :=
  match lookupToml lockDict "version" with
  | none => .absent
  | some tv =>
    match pyInt tv with
    | .error .typeError => .typeError
    | .error .valueError => .absent
    | .ok n =>
      if n < blupkgLockVersion then .absent
      else if n > blupkgLockVersion then .fatal
      else .decoded

/-! ## `unpack_dataclass` (unpack_dataclass.py lines 8-34)

The decoder walks the declared fields of a dataclass via runtime reflection.
The embedding replaces the reflected information by an explicit schema: one
field descriptor is `(name, declared type, has-default?)`, where the Bool is
`field.default != MISSING or field.default_factory != MISSING`. A constructed
dataclass instance is represented by `PyVal.vrec` carrying the validated
mapping it was built from; `unpack_dataclass` accordingly returns the final
(mutated) mapping that Python passes to `ty(**args_dict)`.
-/

/-- A declared field type: primitives (with container types checked only
by their outer kind, via `typing.get_origin`), a nested dataclass with its
own field schema, or `Optional[T]` (the only `Union` form the code accepts). -/
inductive FieldTy where
  | str
  | int
  | bool
  | dictTy
  | listTy
  | record : List (String × FieldTy × Bool) → FieldTy
  | opt : FieldTy → FieldTy

/-- The `Union` unwrap of unpack_dataclass.py lines 18-24: `Optional[T]`
becomes `T`, every other type is returned unchanged. -/
def stripOpt : FieldTy → FieldTy
  | .opt t => t
  | t => t

/-- An untyped value as found in the decoded configuration data, plus `vrec`
for an already-constructed dataclass instance (carrying the mapping it was
constructed from). -/
inductive PyVal where
  | vstr : String → PyVal
  | vint : Int → PyVal
  | vbool : Bool → PyVal
  | vdict : List (String × PyVal) → PyVal
  | vlist : List PyVal → PyVal
  | vrec : List (String × PyVal) → PyVal

/-- The `ValueError` variants unpack_dataclass.py can raise, as the spec's
error taxonomy names them: non-mapping input, a required field absent, and a
value-shape mismatch. -/
inductive UErr where
  | notDict
  | missingField (name : String)
  | typeErr (name : String)
deriving DecidableEq, Repr

/-- `isinstance(val, get_origin(field_type) or field_type)` (unpack_dataclass.py
line 29): containers are checked by outer kind only; a Python `bool` is an
instance of `int`; a dataclass instance matches a dataclass type. -/
def isinstanceOuter : FieldTy → PyVal → Bool
  | .str, .vstr _ => true
  | .int, .vint _ => true
  | .int, .vbool _ => true
  | .bool, .vbool _ => true
  | .dictTy, .vdict _ => true
  | .listTy, .vlist _ => true
  | .record _, .vrec _ => true
  | _, _ => false

/-- Python `field.name in args_dict` / `args_dict[field.name]` on the
unique-key mapping, as an assoc list. -/
def lookupAssoc : List (String × PyVal) → String → Option PyVal
  | [], _ => none
  | (k, v) :: rest, n => if k = n then some v else lookupAssoc rest n

/-- Python `args_dict[field.name] = val` for a key already present: replace
the value at the first matching key. (The code only assigns when the key is
present, so the add-if-absent case of a Python dict never arises.) -/
def updateAssoc : List (String × PyVal) → String → PyVal → List (String × PyVal)
  | [], _, _ => []
  | (k, v) :: rest, n, nv => if k = n then (k, nv) :: rest else (k, v) :: updateAssoc rest n nv

mutual

/-- `unpack_dataclass` (unpack_dataclass.py lines 8-34): reject non-mapping
input, then process the declared fields in order over the mapping. -/
def unpack_dataclass (fs : List (String × FieldTy × Bool)) (v : PyVal) :
    Except UErr (List (String × PyVal)) :=
  match v with
  | .vdict d => unpackFields fs d
  | _ => .error .notDict
termination_by (sizeOf fs, 1)

/-- The `for field in fields(ty)` loop of unpack_dataclass.py lines 12-32,
threading the (in-place mutated) mapping. For a present key whose declared
type unwraps to a nested dataclass, recurse and store the constructed record
back into the mapping (the subsequent `isinstance` check on the fresh record
always passes); for other present keys, check the outer shape; for an absent
key, continue when the field carries a default but fail with
`MissingFieldError` otherwise. -/
def unpackFields (fs : List (String × FieldTy × Bool)) (d : List (String × PyVal)) :
    Except UErr (List (String × PyVal)) :=
  match fs with
  | [] => .ok d
  | (name, ty, hasDefault) :: rest =>
    match lookupAssoc d name with
    | some val =>
      match ty with
      | .record innerFs =>
        match unpack_dataclass innerFs val with
        | .error e => .error e
        | .ok d2 => unpackFields rest (updateAssoc d name (.vrec d2))
      | .opt (.record innerFs) =>
        match unpack_dataclass innerFs val with
        | .error e => .error e
        | .ok d2 => unpackFields rest (updateAssoc d name (.vrec d2))
      | other =>
        if isinstanceOuter (stripOpt other) val then unpackFields rest d
        else .error (.typeErr name)
    | none => if hasDefault then unpackFields rest d else .error (.missingField name)
termination_by (sizeOf fs, 0)
end

/-- Helper for reasoning about `semVerLt`: the whole prerelease part of
`SemVerExact.__lt__` (steps 3 and 4) as one function, applied once the
`(major, minor, patch)` triples are known to be equal. A non-empty tuple
orders below an empty one; two empty tuples are equal; two non-empty ones are
compared by `preListLt`. -/
def preFullLt (p q : List PreId) : Bool :=
  match p, q with
  | _ :: _, [] => true
  | [], _ => false
  | ps, qs => preListLt ps qs

/-- A non-empty all-digit character sequence: one `MAJOR`/`MINOR`/`PATCH`
component of the permissive grammar. -/
def isDigitStr (l : List Char) : Prop := l ≠ [] ∧ ∀ ch ∈ l, isDigitC ch = true

instance (l : List Char) : Decidable (isDigitStr l) :=
  inferInstanceAs (Decidable (l ≠ [] ∧ ∀ ch ∈ l, isDigitC ch = true))

/-- The permissive grammar of section 4.2 of the spec, stated on the input
character sequence: `MAJOR[.MINOR[.PATCH]]` with digit-sequence components
and missing components defaulting to 0. The extra suffix `t` is the part of
the input that the anchor `$` is allowed to leave unconsumed: the grammar of
the spec itself is `PermissiveShape s a b c []`, while the code (through the
Python `$` semantics) also accepts `t = [newline]`. -/
def PermissiveShape (s : List Char) (a b c : Nat) (t : List Char) : Prop :=
  (∃ d1, s = d1 ++ t ∧ isDigitStr d1 ∧ a = natOfDigits d1 ∧ b = 0 ∧ c = 0)
  ∨ (∃ d1 d2, s = d1 ++ '.' :: (d2 ++ t) ∧ isDigitStr d1 ∧ isDigitStr d2 ∧
      a = natOfDigits d1 ∧ b = natOfDigits d2 ∧ c = 0)
  ∨ (∃ d1 d2 d3, s = d1 ++ '.' :: (d2 ++ '.' :: (d3 ++ t)) ∧ isDigitStr d1 ∧
      isDigitStr d2 ∧ isDigitStr d3 ∧ a = natOfDigits d1 ∧ b = natOfDigits d2 ∧
      c = natOfDigits d3)

/-! ## Order-theoretic lemmas about `semVerLt` -/

theorem listCharLtb_asymm : ∀ {p q : List Char},
    listCharLtb p q = true → listCharLtb q p = false
  | [], [], h => by simp [listCharLtb] at h
  | [], _ :: _, _ => rfl
  | _ :: _, [], h => by simp [listCharLtb] at h
  | c :: cs, d :: ds, h => by
    simp only [listCharLtb] at h ⊢
    by_cases hcd : c = d
    · subst hcd
      rw [if_pos rfl] at h ⊢
      exact listCharLtb_asymm h
    · rw [if_neg hcd] at h
      rw [if_neg (fun hdc => hcd hdc.symm)]
      simp only [decide_eq_true_eq] at h
      simp only [decide_eq_false_iff_not]
      omega

theorem listCharLtb_trans : ∀ {p q r : List Char},
    listCharLtb p q = true → listCharLtb q r = true → listCharLtb p r = true
  | [], [], _, h1, _ => by simp [listCharLtb] at h1
  | [], _ :: _, [], _, h2 => by simp [listCharLtb] at h2
  | [], _ :: _, _ :: _, _, _ => rfl
  | _ :: _, [], _, h1, _ => by simp [listCharLtb] at h1
  | _ :: _, _ :: _, [], _, h2 => by simp [listCharLtb] at h2
  | c :: cs, d :: ds, e :: es, h1, h2 => by
    simp only [listCharLtb] at h1 h2 ⊢
    by_cases hcd : c = d
    · subst hcd
      rw [if_pos rfl] at h1
      by_cases hce : c = e
      · subst hce
        rw [if_pos rfl] at h2 ⊢
        exact listCharLtb_trans h1 h2
      · rw [if_neg hce] at h2 ⊢
        exact h2
    · rw [if_neg hcd] at h1
      simp only [decide_eq_true_eq] at h1
      by_cases hde : d = e
      · subst hde
        rw [if_neg hcd]
        simp only [decide_eq_true_eq]
        exact h1
      · rw [if_neg hde] at h2
        simp only [decide_eq_true_eq] at h2
        have hce : c ≠ e := by
          rintro rfl
          omega
        rw [if_neg hce]
        simp only [decide_eq_true_eq]
        omega

theorem preIdLt_asymm : ∀ {a b : PreId}, preIdLt a b = true → preIdLt b a = false
  | .num a, .num b, h => by
    simp only [preIdLt, decide_eq_true_eq] at h
    simp only [preIdLt, decide_eq_false_iff_not]
    omega
  | .num _, .str _, _ => rfl
  | .str _, .num _, h => by simp [preIdLt] at h
  | .str a, .str b, h => by
    simp only [preIdLt] at h ⊢
    exact listCharLtb_asymm h

theorem preIdLt_trans : ∀ {a b c : PreId},
    preIdLt a b = true → preIdLt b c = true → preIdLt a c = true
  | .num a, .num b, .num c, h1, h2 => by
    simp only [preIdLt, decide_eq_true_eq] at h1 h2 ⊢
    omega
  | .num _, .num _, .str _, _, _ => rfl
  | .num _, .str _, .num _, _, h2 => by simp [preIdLt] at h2
  | .num _, .str _, .str _, _, _ => rfl
  | .str _, .num _, _, h1, _ => by simp [preIdLt] at h1
  | .str _, .str _, .num _, _, h2 => by simp [preIdLt] at h2
  | .str a, .str b, .str c, h1, h2 => by
    simp only [preIdLt] at h1 h2 ⊢
    exact listCharLtb_trans h1 h2

theorem preListLt_asymm : ∀ {p q : List PreId},
    preListLt p q = true → preListLt q p = false
  | [], [], h => by simpa [preListLt] using h
  | [], _ :: _, _ => by simp [preListLt]
  | _ :: _, [], h => by simpa [preListLt] using h
  | a :: as, b :: bs, h => by
    simp only [preListLt] at h ⊢
    by_cases hab : a = b
    · subst hab
      rw [if_pos rfl] at h ⊢
      exact preListLt_asymm h
    · rw [if_neg hab] at h
      rw [if_neg (fun hba => hab hba.symm)]
      exact preIdLt_asymm h

theorem preListLt_trans : ∀ {p q r : List PreId},
    preListLt p q = true → preListLt q r = true → preListLt p r = true
  | [], [], _, h1, _ => by simp [preListLt] at h1
  | [], _ :: _, [], _, h2 => by simp [preListLt] at h2
  | [], _ :: _, _ :: _, _, _ => by simp [preListLt]
  | _ :: _, [], _, h1, _ => by simp [preListLt] at h1
  | _ :: _, _ :: _, [], _, h2 => by simp [preListLt] at h2
  | a :: as, b :: bs, c :: cs, h1, h2 => by
    simp only [preListLt] at h1 h2 ⊢
    by_cases hab : a = b
    · subst hab
      rw [if_pos rfl] at h1
      by_cases hac : a = c
      · subst hac
        rw [if_pos rfl] at h2 ⊢
        exact preListLt_trans h1 h2
      · rw [if_neg hac] at h2 ⊢
        exact h2
    · rw [if_neg hab] at h1
      by_cases hbc : b = c
      · subst hbc
        rw [if_neg hab]
        exact h1
      · rw [if_neg hbc] at h2
        have hac : a ≠ c := by
          rintro rfl
          have := preIdLt_asymm h1
          rw [this] at h2
          exact Bool.false_ne_true h2
        rw [if_neg hac]
        exact preIdLt_trans h1 h2

theorem preFullLt_asymm : ∀ {p q : List PreId},
    preFullLt p q = true → preFullLt q p = false
  | _ :: _, [], _ => by simp [preFullLt]
  | [], _, h => by simp [preFullLt] at h
  | _ :: _, _ :: _, h => by
    simp only [preFullLt] at h ⊢
    exact preListLt_asymm h

theorem preFullLt_trans : ∀ {p q r : List PreId},
    preFullLt p q = true → preFullLt q r = true → preFullLt p r = true
  | _ :: _, [], _, _, h2 => by simp [preFullLt] at h2
  | [], _, _, h1, _ => by simp [preFullLt] at h1
  | _ :: _, _ :: _, [], _, _ => by simp [preFullLt]
  | _ :: _, _ :: _, _ :: _, h1, h2 => by
    simp only [preFullLt] at h1 h2 ⊢
    exact preListLt_trans h1 h2

theorem semVerLt_iff (x y : SemVerExact) :
    semVerLt x y = true ↔
      (mmpLt x y ∨
        (¬ mmpLt x y ∧ ¬ mmpLt y x ∧ preFullLt x.prerelease y.prerelease = true)) := by
  unfold semVerLt
  rcases hx : x.prerelease with _ | ⟨p, ps⟩ <;> rcases hy : y.prerelease with _ | ⟨q, qs⟩ <;>
    split_ifs with h1 h2 <;> simp_all [preFullLt]

theorem semVerLt_asymmetric {x y : SemVerExact} (h : semVerLt x y = true) :
    semVerLt y x = false := by
  rw [semVerLt_iff] at h
  rw [Bool.eq_false_iff]
  intro hyx
  rw [semVerLt_iff] at hyx
  rcases h with h | ⟨ha, hb, hc⟩ <;> rcases hyx with h2 | ⟨h2a, h2b, h2c⟩
  · unfold mmpLt at h h2; omega
  · exact h2b h
  · exact hb h2
  · have := preFullLt_asymm hc
    rw [this] at h2c
    exact Bool.false_ne_true h2c

theorem semVerLt_trans {x y z : SemVerExact} (h1 : semVerLt x y = true)
    (h2 : semVerLt y z = true) : semVerLt x z = true := by
  rw [semVerLt_iff] at h1 h2 ⊢
  rcases h1 with h1 | ⟨h1a, h1b, h1c⟩ <;> rcases h2 with h2 | ⟨h2a, h2b, h2c⟩
  · left; unfold mmpLt at *; omega
  · left; unfold mmpLt at *; omega
  · left; unfold mmpLt at *; omega
  · right
    refine ⟨by unfold mmpLt at *; omega, by unfold mmpLt at *; omega, ?_⟩
    exact preFullLt_trans h1c h2c

/-! ## Claim theorems -/

/-- C1 (code bug): the spec says `parse` succeeds on every string matching the
grammar, in particular on plain versions such as `"1.0.0"`, but the code
raises `ValueError` on every version string with no prerelease part: an absent
prerelease group becomes `""`, whose `split(".")` yields one empty identifier,
tripping the empty-identifier check. A version with a prerelease part parses
as expected (though with `("",)` stored as build metadata, see C2). -/
theorem claim_C1_parse_rejects_plain_versions :
    SemVerExact.parse "1.0.0" = none ∧
      SemVerExact.parse "1.0.0-alpha" =
        some ⟨1, 0, 0, [.str "alpha"], [""]⟩ := by decide

/-- C2 (code bug): the round trip `parse(format(v)) == v` fails for every
`v` with an empty prerelease sequence — `format` renders `1.0.0` and `parse`
rejects it (see C1) — and also for every `v` with an empty build-metadata
sequence, since a successful `parse` always stores `("",)` (here `[""]`) as
build metadata when the `+` part is absent. -/
theorem claim_C2_roundtrip_fails :
    SemVerExact.format ⟨1, 0, 0, [], []⟩ = "1.0.0" ∧
      SemVerExact.parse (SemVerExact.format ⟨1, 0, 0, [], []⟩) = none ∧
      SemVerExact.parse (SemVerExact.format ⟨1, 0, 0, [.str "alpha"], []⟩) =
        some ⟨1, 0, 0, [.str "alpha"], [""]⟩ := by decide

/-- C6 (confirmed): `SemVerExact.__lt__` reproduces the semver.org reference
chains `1.0.0 < 2.0.0 < 2.1.0 < 2.1.1`, `1.0.0-alpha < 1.0.0` and
`1.0.0-alpha < 1.0.0-alpha.1 < 1.0.0-alpha.beta < 1.0.0-beta < 1.0.0-beta.2
< 1.0.0-beta.11 < 1.0.0-rc.1 < 1.0.0`. -/
theorem claim_C6_semver_reference_chain :
    semVerLt ⟨1, 0, 0, [], []⟩ ⟨2, 0, 0, [], []⟩ = true ∧
      semVerLt ⟨2, 0, 0, [], []⟩ ⟨2, 1, 0, [], []⟩ = true ∧
      semVerLt ⟨2, 1, 0, [], []⟩ ⟨2, 1, 1, [], []⟩ = true ∧
      semVerLt ⟨1, 0, 0, [.str "alpha"], []⟩ ⟨1, 0, 0, [], []⟩ = true ∧
      semVerLt ⟨1, 0, 0, [.str "alpha"], []⟩ ⟨1, 0, 0, [.str "alpha", .num 1], []⟩ = true ∧
      semVerLt ⟨1, 0, 0, [.str "alpha", .num 1], []⟩
        ⟨1, 0, 0, [.str "alpha", .str "beta"], []⟩ = true ∧
      semVerLt ⟨1, 0, 0, [.str "alpha", .str "beta"], []⟩ ⟨1, 0, 0, [.str "beta"], []⟩ = true ∧
      semVerLt ⟨1, 0, 0, [.str "beta"], []⟩ ⟨1, 0, 0, [.str "beta", .num 2], []⟩ = true ∧
      semVerLt ⟨1, 0, 0, [.str "beta", .num 2], []⟩
        ⟨1, 0, 0, [.str "beta", .num 11], []⟩ = true ∧
      semVerLt ⟨1, 0, 0, [.str "beta", .num 11], []⟩ ⟨1, 0, 0, [.str "rc", .num 1], []⟩ = true ∧
      semVerLt ⟨1, 0, 0, [.str "rc", .num 1], []⟩ ⟨1, 0, 0, [], []⟩ = true := by decide

/-- C7 (confirmed): over versions obtained from successful parses (indeed over
all `SemVerExact` values), the strict order `SemVerExact.__lt__` is
antisymmetric and transitive. -/
theorem claim_C7_compare_antisymm_trans (a b c : SemVerExact)
    (ha : ∃ s, SemVerExact.parse s = some a) (hb : ∃ s, SemVerExact.parse s = some b)
    (hc : ∃ s, SemVerExact.parse s = some c) :
    (¬ (semVerLt a b = true ∧ semVerLt b a = true)) ∧
      ((semVerLt a b = true ∧ semVerLt b c = true) → semVerLt a c = true) := by
  clear ha hb hc
  refine ⟨fun ⟨h1, h2⟩ => ?_, fun ⟨h1, h2⟩ => semVerLt_trans h1 h2⟩
  rw [semVerLt_asymmetric h1] at h2
  exact Bool.false_ne_true h2

/-- Witness for C7 at three concretely parsed versions. -/
theorem claim_C7_witness :
    (¬ (semVerLt ⟨1, 0, 0, [.str "alpha"], [""]⟩ ⟨1, 0, 0, [.str "beta"], [""]⟩ = true ∧
        semVerLt ⟨1, 0, 0, [.str "beta"], [""]⟩ ⟨1, 0, 0, [.str "alpha"], [""]⟩ = true)) ∧
      ((semVerLt ⟨1, 0, 0, [.str "alpha"], [""]⟩ ⟨1, 0, 0, [.str "beta"], [""]⟩ = true ∧
        semVerLt ⟨1, 0, 0, [.str "beta"], [""]⟩ ⟨2, 0, 0, [.num 1], [""]⟩ = true) →
        semVerLt ⟨1, 0, 0, [.str "alpha"], [""]⟩ ⟨2, 0, 0, [.num 1], [""]⟩ = true) :=
  claim_C7_compare_antisymm_trans _ _ _
    ⟨"1.0.0-alpha", by decide⟩ ⟨"1.0.0-beta", by decide⟩ ⟨"2.0.0-1", by decide⟩

/-- C3 (counterexample): the claim asserts that a Local (path) source with
exactly one version selector set constructs successfully, but
`BlupkgDep.__post_init__` rejects every selector when `path` is used (its
field docstrings say the selectors are only supported with `git`). -/
theorem claim_C3_counterexample :
    BlupkgDep.postInitOk { path := some "deps/foo", version := some "2.3" } = false := by
  decide

/-- C3 (amended): a `BlupkgDep` constructs exactly when the `git` source is
set, the `path` source is not, and exactly one of `{version, rev, tag,
branch}` is set; every other combination (including any `path` source, with
or without selectors) fails with `DependencySpecConflict`. -/
theorem claim_C3_amended_selector_rules (d : BlupkgDep) :
    BlupkgDep.postInitOk d = true ↔
      (truthy d.git = true ∧ truthy d.path = false ∧ selCount d = 1) := by
  unfold BlupkgDep.postInitOk
  cases hg : truthy d.git <;> cases hp : truthy d.path <;>
    simp [hg, hp] <;> omega

/-- C4 (counterexample): the claim asserts that for every non-integer
`formatVersion` value the lock is never decoded, but `int()` coerces the
string `"1"` to the supported constant and the lock is decoded. -/
theorem claim_C4_counterexample :
    loadLockOutcome [("version", TomlVal.str "1")] = LockOutcome.decoded := by decide

/-- C4 (amended): the lock load keys its behaviour on the result of the
Python `int()` coercion of `formatVersion`, not on the value being an
integer: an absent key or a failed coercion (`ValueError`) yields an absent
lock non-fatally, a coerced value below the supported constant yields an
absent lock non-fatally, a coerced value above it is fatal, and a coerced
value equal to it proceeds to decode — so numeric strings and booleans are
coerced rather than treated as corrupt (and a container value raises an
uncaught `TypeError`). -/
theorem claim_C4_amended_lock_version_check (d : List (String × TomlVal)) :
    (loadLockOutcome d = .fatal ↔
      (∃ tv n, lookupToml d "version" = some tv ∧ pyInt tv = .ok n ∧ blupkgLockVersion < n)) ∧
      (loadLockOutcome d = .decoded ↔
        (∃ tv, lookupToml d "version" = some tv ∧ pyInt tv = .ok blupkgLockVersion)) ∧
      (loadLockOutcome d = .absent ↔
        (lookupToml d "version" = none ∨
          ∃ tv, lookupToml d "version" = some tv ∧
            (pyInt tv = .error .valueError ∨
              ∃ n, pyInt tv = .ok n ∧ n < blupkgLockVersion))) := by
  unfold loadLockOutcome
  rcases h : lookupToml d "version" with _ | tv
  · simp
  · rcases hp : pyInt tv with e | n
    · cases e <;> simp [hp]
    · simp only [h, hp, blupkgLockVersion]
      split_ifs with h1 h2
      · refine ⟨iff_of_false (by simp) ?_, iff_of_false (by simp) ?_,
          iff_of_true rfl (Or.inr ⟨tv, rfl, Or.inr ⟨n, hp, h1⟩⟩)⟩
        · rintro ⟨tv2, m, htv2, hok, hm⟩
          injection htv2 with htv2
          subst htv2
          rw [hp] at hok
          injection hok with hok
          omega
        · rintro ⟨tv2, htv2, hok⟩
          injection htv2 with htv2
          subst htv2
          rw [hp] at hok
          injection hok with hok
          omega
      · refine ⟨iff_of_true rfl ⟨tv, n, rfl, hp, h2⟩, iff_of_false (by simp) ?_,
          iff_of_false (by simp) ?_⟩
        · rintro ⟨tv2, htv2, hok⟩
          injection htv2 with htv2
          subst htv2
          rw [hp] at hok
          injection hok with hok
          omega
        · rintro (htv2 | ⟨tv2, htv2, hok | ⟨m, hok, hm⟩⟩)
          · exact absurd htv2 (by simp)
          all_goals
            injection htv2 with htv2
            subst htv2
            rw [hp] at hok
          · exact absurd hok (by simp)
          · injection hok with hok
            omega
      · have hn : n = 1 := by omega
        subst hn
        refine ⟨iff_of_false (by simp) ?_, iff_of_true rfl ⟨tv, rfl, hp⟩,
          iff_of_false (by simp) ?_⟩
        · rintro ⟨tv2, m, htv2, hok, hm⟩
          injection htv2 with htv2
          subst htv2
          rw [hp] at hok
          injection hok with hok
          omega
        · rintro (htv2 | ⟨tv2, htv2, hok | ⟨m, hok, hm⟩⟩)
          · exact absurd htv2 (by simp)
          all_goals
            injection htv2 with htv2
            subst htv2
            rw [hp] at hok
          · exact absurd hok (by simp)
          · injection hok with hok
            omega

/-- C5 (confirmed; `contains` itself is modelled from the spec, section 4.2,
as it is absent from src): `contains(range, version)` is true exactly when
`compare(range.min, version) <= 0` and `compare(version, range.max) < 0`
under the ExactVersion order, and on the parsed range `"2.3"` it accepts
`2.3.0` and `2.9.9` and rejects `3.0.0`. -/
theorem claim_C5_contains_characterization :
    (∀ (r : SemVerRange) (v : SemVerExact),
        r.contains v = true ↔ (compareExact r.min v ≤ 0 ∧ compareExact v r.max < 0)) ∧
      (∃ r, SemVerRange.parse "2.3" = some r ∧
        r.contains ⟨2, 3, 0, [], []⟩ = true ∧
        r.contains ⟨2, 9, 9, [], []⟩ = true ∧
        r.contains ⟨3, 0, 0, [], []⟩ = false) := by
  constructor
  · intro r v
    simp [SemVerRange.contains]
  · exact ⟨⟨⟨2, 3, 0, [], []⟩, ⟨3, 0, 0, [], []⟩⟩, by decide, by decide, by decide, by decide⟩

/-- C10 (confirmed): every range returned by a successful `SemVerRange.parse`
has its inclusive minimum strictly below its exclusive maximum in the
`SemVerExact` order, although the `SemVerRange` constructor itself enforces
nothing. -/
theorem claim_C10_range_min_lt_max (s : String) (r : SemVerRange)
    (h : SemVerRange.parse s = some r) : semVerLt r.min r.max = true := by
  unfold SemVerRange.parse at h
  rcases hp : parsePermissive s.toList with _ | ⟨a, b, c⟩ <;> simp only [hp] at h
  · exact absurd h (by simp)
  · split_ifs at h with ha <;> injection h with h <;> subst h
    · have hm : mmpLt ⟨0, b, c, [], []⟩ ⟨0, b + 1, 0, [], []⟩ := by
        unfold mmpLt; simp
      simp [semVerLt, hm]
    · have hm : mmpLt ⟨a, b, c, [], []⟩ ⟨a + 1, 0, 0, [], []⟩ := by
        unfold mmpLt; simp
      simp [semVerLt, hm]

/-- Witness for C10 at the parsed range `"2.3"`. -/
theorem claim_C10_witness :
    semVerLt (⟨2, 3, 0, [], []⟩ : SemVerExact) ⟨3, 0, 0, [], []⟩ = true :=
  claim_C10_range_min_lt_max "2.3" ⟨⟨2, 3, 0, [], []⟩, ⟨3, 0, 0, [], []⟩⟩ (by decide)

/-! ## Lemmas about `unpackFields` -/

theorem lookupAssoc_update_none {d : List (String × PyVal)} {k n : String} {nv : PyVal}
    (h : lookupAssoc d n = none) : lookupAssoc (updateAssoc d k nv) n = none := by
  induction d with
  | nil => rfl
  | cons p rest ih =>
    obtain ⟨k0, v0⟩ := p
    simp only [lookupAssoc] at h
    by_cases hk : k0 = n
    · rw [if_pos hk] at h
      exact absurd h (by simp)
    · rw [if_neg hk] at h
      simp only [updateAssoc]
      by_cases hkk : k0 = k
      · rw [if_pos hkk]
        simp only [lookupAssoc, if_neg hk]
        exact h
      · rw [if_neg hkk]
        simp only [lookupAssoc, if_neg hk]
        exact ih h

theorem unpackFields_keeps_none :
    ∀ (fs : List (String × FieldTy × Bool)) (d d' : List (String × PyVal)) (n : String),
      unpackFields fs d = .ok d' → lookupAssoc d n = none → lookupAssoc d' n = none := by
  intro fs
  induction fs with
  | nil =>
    intro d d' n h hn
    simp only [unpackFields] at h
    injection h with h
    subst h
    exact hn
  | cons f rest ih =>
    obtain ⟨name, ty, hasDefault⟩ := f
    intro d d' n h hn
    simp only [unpackFields] at h
    rcases hl : lookupAssoc d name with _ | val <;> simp only [hl] at h
    · cases hasDefault
      · exact absurd h (by simp)
      · exact ih d d' n h hn
    · split at h
      · rename_i innerFs
        rcases hu : unpack_dataclass innerFs val with e | d2 <;> simp only [hu] at h
        · exact absurd h (by simp)
        · exact ih _ d' n h (lookupAssoc_update_none hn)
      · rename_i innerFs
        rcases hu : unpack_dataclass innerFs val with e | d2 <;> simp only [hu] at h
        · exact absurd h (by simp)
        · exact ih _ d' n h (lookupAssoc_update_none hn)
      · split at h
        · exact ih d d' n h hn
        · exact absurd h (by simp)

theorem unpackFields_append :
    ∀ (fs1 fs2 : List (String × FieldTy × Bool)) (d : List (String × PyVal)),
      unpackFields (fs1 ++ fs2) d =
        match unpackFields fs1 d with
        | .ok d1 => unpackFields fs2 d1
        | .error e => .error e := by
  intro fs1
  induction fs1 with
  | nil =>
    intro fs2 d
    simp only [List.nil_append, unpackFields]
  | cons f rest ih =>
    obtain ⟨name, ty, hasDefault⟩ := f
    intro fs2 d
    simp only [List.cons_append, unpackFields]
    rcases hl : lookupAssoc d name with _ | val <;> simp only [hl]
    · cases hasDefault
      · simp
      · simp only [if_pos rfl]
        exact ih fs2 d
    · split
      · rename_i innerFs
        rcases hu : unpack_dataclass innerFs val with e | d2 <;> simp only [hu]
        exact ih fs2 _
      · rename_i innerFs
        rcases hu : unpack_dataclass innerFs val with e | d2 <;> simp only [hu]
        exact ih fs2 _
      · split
        · exact ih fs2 d
        · simp

/-- C9 (confirmed): for any field schema, a mapping that lacks the key of a
required field — one whose descriptor carries no default — makes
`unpack_dataclass` fail with `MissingFieldError` naming exactly that field
(provided the fields declared before it decode, which is the scenario of the
claim: the loop stops at the first failing field); and the absence of a field
that carries a default is no error: the decoder leaves the mapping untouched
and the default is applied at record construction, not by the decoder. -/
theorem claim_C9_missing_required_field :
    (∀ (pre post : List (String × FieldTy × Bool)) (nm : String) (ty : FieldTy)
        (d d' : List (String × PyVal)),
        lookupAssoc d nm = none → unpackFields pre d = .ok d' →
        unpack_dataclass (pre ++ (nm, ty, false) :: post) (.vdict d) =
          .error (.missingField nm)) ∧
      (∀ (nm : String) (ty : FieldTy) (post : List (String × FieldTy × Bool))
          (d : List (String × PyVal)),
          lookupAssoc d nm = none →
          unpack_dataclass ((nm, ty, true) :: post) (.vdict d) =
            unpack_dataclass post (.vdict d)) := by
  constructor
  · intro pre post nm ty d d' hn hok
    simp only [unpack_dataclass, unpackFields_append, hok]
    have hn' : lookupAssoc d' nm = none := unpackFields_keeps_none pre d d' nm hok hn
    simp only [unpackFields, hn']
    simp
  · intro nm ty post d hn
    simp only [unpack_dataclass, unpackFields, hn]
    simp

/-- Witness for C9: a two-field schema (both required) applied to a mapping
supplying only the first field fails naming the second; a defaulted field
absent from the mapping is no error and leaves the mapping unchanged. -/
theorem claim_C9_witness :
    unpack_dataclass [("name", .str, false), ("version", .str, false)]
        (.vdict [("name", .vstr "pkg")]) = .error (.missingField "version") ∧
      unpack_dataclass [("toplevel", .str, true)] (.vdict []) =
        unpack_dataclass [] (.vdict []) :=
  ⟨claim_C9_missing_required_field.1 [("name", .str, false)] [] "version" .str
      [("name", .vstr "pkg")] [("name", .vstr "pkg")] rfl
      (by simp [unpackFields, lookupAssoc, stripOpt, isinstanceOuter]),
    claim_C9_missing_required_field.2 "toplevel" .str [] [] rfl⟩

/-! ## Lemmas about `parsePermissive` -/

theorem atEnd_true_iff {r : List Char} : atEnd r = true ↔ r = [] ∨ r = ['\n'] := by
  simp [atEnd]

theorem takeWhile_append_of {p : Char → Bool} :
    ∀ {l1 l2 : List Char}, (∀ ch ∈ l1, p ch = true) → l2.takeWhile p = [] →
      (l1 ++ l2).takeWhile p = l1 ∧ (l1 ++ l2).dropWhile p = l2 := by
  intro l1
  induction l1 with
  | nil =>
    intro l2 _ h2
    refine ⟨h2, ?_⟩
    rcases l2 with _ | ⟨x, xs⟩
    · rfl
    · rw [List.takeWhile_cons] at h2
      rw [List.nil_append, List.dropWhile_cons]
      by_cases hx : p x = true
      · rw [if_pos hx] at h2
        exact absurd h2 (by simp)
      · rw [if_neg hx]
  | cons ch cs ih =>
    intro l2 h1 h2
    have hch : p ch = true := h1 ch (by simp)
    obtain ⟨iht, ihd⟩ := ih (fun x hx => h1 x (by simp [hx])) h2
    constructor
    · rw [List.cons_append, List.takeWhile_cons, if_pos hch, iht]
    · rw [List.cons_append, List.dropWhile_cons, if_pos hch, ihd]

theorem parsePermissive_digits {d1 l2 : List Char} (hd : isDigitStr d1)
    (h2 : l2.takeWhile isDigitC = []) :
    parsePermissive (d1 ++ l2) = permTail1 (natOfDigits d1) l2 := by
  obtain ⟨htake, hdrop⟩ := takeWhile_append_of hd.2 h2
  unfold parsePermissive
  rw [htake, hdrop, if_neg hd.1]

theorem permTail2_digits {a : Nat} {d2 l2 : List Char} (hd : isDigitStr d2)
    (h2 : l2.takeWhile isDigitC = []) :
    permTail2 a (d2 ++ l2) = permTail2b a (natOfDigits d2) l2 := by
  obtain ⟨htake, hdrop⟩ := takeWhile_append_of hd.2 h2
  unfold permTail2
  rw [htake, hdrop, if_neg hd.1]

theorem permTail3_digits {a b : Nat} {d3 l2 : List Char} (hd : isDigitStr d3)
    (h2 : l2.takeWhile isDigitC = []) (hend : atEnd l2 = true) :
    permTail3 a b (d3 ++ l2) = some (a, b, natOfDigits d3) := by
  obtain ⟨htake, hdrop⟩ := takeWhile_append_of hd.2 h2
  unfold permTail3
  rw [htake, hdrop, if_neg hd.1, if_pos hend]

theorem permTail1_nil {a : Nat} : permTail1 a [] = some (a, 0, 0) := rfl

theorem permTail1_dot {a : Nat} {r2 : List Char} : permTail1 a ('.' :: r2) = permTail2 a r2 :=
  rfl

theorem permTail1_not_dot {a : Nat} {x : Char} {r : List Char} (hx : x ≠ '.') :
    permTail1 a (x :: r) = if atEnd (x :: r) then some (a, 0, 0) else none := by
  unfold permTail1
  split
  · rename_i heq
    injection heq with h1 _
    exact absurd h1 hx
  · rfl

theorem permTail2b_nil {a b : Nat} : permTail2b a b [] = some (a, b, 0) := rfl

theorem permTail2b_dot {a b : Nat} {r4 : List Char} :
    permTail2b a b ('.' :: r4) = permTail3 a b r4 := rfl

theorem permTail2b_not_dot {a b : Nat} {y : Char} {r : List Char} (hy : y ≠ '.') :
    permTail2b a b (y :: r) = if atEnd (y :: r) then some (a, b, 0) else none := by
  unfold permTail2b
  split
  · rename_i heq
    injection heq with h1 _
    exact absurd h1 hy
  · rfl

/-- The forward half of the `SemVerRange.parse` characterization: any input of
the permissive shape (with a tail the anchor tolerates) is parsed into its
three numeric components. -/
theorem parsePermissive_of_shape {cs : List Char} {a b c : Nat} {t : List Char}
    (ht : t = [] ∨ t = ['\n']) (h : PermissiveShape cs a b c t) :
    parsePermissive cs = some (a, b, c) := by
  have htw : t.takeWhile isDigitC = [] := by rcases ht with rfl | rfl <;> rfl
  have hte : atEnd t = true := by rcases ht with rfl | rfl <;> rfl
  rcases h with ⟨d1, rfl, hd1, rfl, rfl, rfl⟩ |
    ⟨d1, d2, rfl, hd1, hd2, rfl, rfl, rfl⟩ |
    ⟨d1, d2, d3, rfl, hd1, hd2, hd3, rfl, rfl, rfl⟩
  · rw [parsePermissive_digits hd1 htw]
    rcases ht with rfl | rfl <;> rfl
  · have hdotTail : ('.' :: (d2 ++ t)).takeWhile isDigitC = [] := rfl
    rw [parsePermissive_digits hd1 hdotTail, permTail1_dot, permTail2_digits hd2 htw]
    rcases ht with rfl | rfl <;> rfl
  · have hdotTail : ('.' :: (d2 ++ '.' :: (d3 ++ t))).takeWhile isDigitC = [] := rfl
    have hdotTail2 : ('.' :: (d3 ++ t)).takeWhile isDigitC = [] := rfl
    rw [parsePermissive_digits hd1 hdotTail, permTail1_dot,
      permTail2_digits hd2 hdotTail2, permTail2b_dot, permTail3_digits hd3 htw hte]

/-- The backward half of the `SemVerRange.parse` characterization: any input
the permissive regex accepts decomposes into the permissive shape followed by
a tail the anchor tolerates. -/
theorem shape_of_parsePermissive {cs : List Char} {a b c : Nat}
    (h : parsePermissive cs = some (a, b, c)) :
    ∃ t, (t = [] ∨ t = ['\n']) ∧ PermissiveShape cs a b c t := by
  unfold parsePermissive at h
  split_ifs at h with hd1
  have hdig1 : isDigitStr (cs.takeWhile isDigitC) :=
    ⟨hd1, fun ch hch => List.mem_takeWhile_imp hch⟩
  have hcs : cs = cs.takeWhile isDigitC ++ cs.dropWhile isDigitC :=
    (List.takeWhile_append_dropWhile isDigitC cs).symm
  rcases hdrop : cs.dropWhile isDigitC with _ | ⟨x, r2⟩
  · rw [hdrop, permTail1_nil] at h
    simp only [Option.some.injEq, Prod.mk.injEq] at h
    obtain ⟨rfl, rfl, rfl⟩ := h
    refine ⟨[], Or.inl rfl, Or.inl ⟨cs.takeWhile isDigitC, ?_, hdig1, rfl, rfl, rfl⟩⟩
    conv_lhs => rw [hcs, hdrop]
  · by_cases hx : x = '.'
    · subst hx
      rw [hdrop, permTail1_dot] at h
      unfold permTail2 at h
      split_ifs at h with hd2
      have hdig2 : isDigitStr (r2.takeWhile isDigitC) :=
        ⟨hd2, fun ch hch => List.mem_takeWhile_imp hch⟩
      have hr2 : r2 = r2.takeWhile isDigitC ++ r2.dropWhile isDigitC :=
        (List.takeWhile_append_dropWhile isDigitC r2).symm
      rcases hdrop2 : r2.dropWhile isDigitC with _ | ⟨y, r4⟩
      · rw [hdrop2, permTail2b_nil] at h
        simp only [Option.some.injEq, Prod.mk.injEq] at h
        obtain ⟨rfl, rfl, rfl⟩ := h
        refine ⟨[], Or.inl rfl,
          Or.inr (Or.inl ⟨cs.takeWhile isDigitC, r2.takeWhile isDigitC, ?_,
            hdig1, hdig2, rfl, rfl, rfl⟩)⟩
        conv_lhs => rw [hcs, hdrop, hr2, hdrop2]
      · by_cases hy : y = '.'
        · subst hy
          rw [hdrop2, permTail2b_dot] at h
          unfold permTail3 at h
          split_ifs at h with hd3 hend
          have hdig3 : isDigitStr (r4.takeWhile isDigitC) :=
            ⟨hd3, fun ch hch => List.mem_takeWhile_imp hch⟩
          have hr4 : r4 = r4.takeWhile isDigitC ++ r4.dropWhile isDigitC :=
            (List.takeWhile_append_dropWhile isDigitC r4).symm
          simp only [Option.some.injEq, Prod.mk.injEq] at h
          obtain ⟨rfl, rfl, rfl⟩ := h
          refine ⟨r4.dropWhile isDigitC, atEnd_true_iff.mp hend,
            Or.inr (Or.inr ⟨cs.takeWhile isDigitC, r2.takeWhile isDigitC,
              r4.takeWhile isDigitC, ?_, hdig1, hdig2, hdig3, rfl, rfl, rfl⟩)⟩
          conv_lhs => rw [hcs, hdrop, hr2, hdrop2, hr4]
        · rw [hdrop2, permTail2b_not_dot hy] at h
          split_ifs at h with hend
          simp only [Option.some.injEq, Prod.mk.injEq] at h
          obtain ⟨rfl, rfl, rfl⟩ := h
          refine ⟨y :: r4, atEnd_true_iff.mp hend,
            Or.inr (Or.inl ⟨cs.takeWhile isDigitC, r2.takeWhile isDigitC, ?_,
              hdig1, hdig2, rfl, rfl, rfl⟩)⟩
          conv_lhs => rw [hcs, hdrop, hr2, hdrop2]
    · rw [hdrop, permTail1_not_dot hx] at h
      split_ifs at h with hend
      simp only [Option.some.injEq, Prod.mk.injEq] at h
      obtain ⟨rfl, rfl, rfl⟩ := h
      refine ⟨x :: r2, atEnd_true_iff.mp hend,
        Or.inl ⟨cs.takeWhile isDigitC, ?_, hdig1, rfl, rfl, rfl⟩⟩
      conv_lhs => rw [hcs, hdrop]

/-- Every character of a permissive-shape input is in the tolerated tail, a
digit, or a dot. -/
theorem PermissiveShape_chars {s : List Char} {a b c : Nat} {t : List Char}
    (h : PermissiveShape s a b c t) :
    ∀ ch ∈ s, ch ∈ t ∨ isDigitC ch = true ∨ ch = '.' := by
  rcases h with ⟨d1, rfl, hd1, _⟩ |
    ⟨d1, d2, rfl, hd1, hd2, _⟩ |
    ⟨d1, d2, d3, rfl, hd1, hd2, hd3, _⟩ <;>
    intro ch hch <;> simp only [List.mem_append, List.mem_cons] at hch
  · rcases hch with hch | hch
    · exact Or.inr (Or.inl (hd1.2 ch hch))
    · exact Or.inl hch
  · rcases hch with hch | hch | hch
    · exact Or.inr (Or.inl (hd1.2 ch hch))
    · exact Or.inr (Or.inr hch)
    · rcases hch with hch | hch
      · exact Or.inr (Or.inl (hd2.2 ch hch))
      · exact Or.inl hch
  · rcases hch with hch | hch | hch
    · exact Or.inr (Or.inl (hd1.2 ch hch))
    · exact Or.inr (Or.inr hch)
    · rcases hch with hch | hch | hch
      · exact Or.inr (Or.inl (hd2.2 ch hch))
      · exact Or.inr (Or.inr hch)
      · rcases hch with hch | hch
        · exact Or.inr (Or.inl (hd3.2 ch hch))
        · exact Or.inl hch

/-- C8 (counterexample): the claim says every string not matching the
permissive grammar `MAJOR[.MINOR[.PATCH]]` fails with `ParseError`, but the
Python anchor `$` also matches just before one trailing newline, so
`"2.3\n"` — which does not match the grammar — parses successfully. -/
theorem claim_C8_counterexample :
    SemVerRange.parse "2.3\n" = some ⟨⟨2, 3, 0, [], []⟩, ⟨3, 0, 0, [], []⟩⟩ ∧
      ∀ a b c : Nat, ¬ PermissiveShape ("2.3\n".toList) a b c [] := by
  constructor
  · decide
  · intro a b c h
    have hmem := PermissiveShape_chars h '\n' (by decide)
    rcases hmem with h1 | h1 | h1 <;> exact absurd h1 (by decide)

/-- C8 (amended): for every string of the permissive form
`MAJOR[.MINOR[.PATCH]]` — optionally followed by one trailing newline, which
the regex anchor `$` tolerates — `parseRange` returns the half-open range
`[E(0, minor, patch), E(0, minor+1, 0))` when `major == 0` and
`[E(major, minor, patch), E(major+1, 0, 0))` otherwise (`compatRange`), with
missing components defaulting to 0; every other string fails with
`ParseError`. -/
theorem claim_C8_amended_parse_range :
    (∀ (s : String) (a b c : Nat) (t : List Char), (t = [] ∨ t = ['\n']) →
        PermissiveShape s.toList a b c t →
        SemVerRange.parse s = some (compatRange a b c)) ∧
      (∀ s : String, (∀ (a b c : Nat) (t : List Char), (t = [] ∨ t = ['\n']) →
          ¬ PermissiveShape s.toList a b c t) →
        SemVerRange.parse s = none) := by
  constructor
  · intro s a b c t ht hshape
    have hp := parsePermissive_of_shape ht hshape
    unfold SemVerRange.parse
    simp only [hp]
    by_cases ha : a = 0
    · simp [compatRange, ha]
    · simp [compatRange, ha]
  · intro s hns
    rcases hp : parsePermissive s.toList with _ | ⟨a, b, c⟩
    · unfold SemVerRange.parse
      simp only [hp]
    · obtain ⟨t, ht, hshape⟩ := shape_of_parsePermissive hp
      exact absurd hshape (hns a b c t ht)

/-- Witness for C8: `"2.3"` has the permissive shape (with empty tail) and
parses to the compatible range; `"q"` has no permissive shape and fails. -/
theorem claim_C8_witness :
    SemVerRange.parse "2.3" = some (compatRange 2 3 0) ∧ SemVerRange.parse "q" = none := by
  constructor
  · exact claim_C8_amended_parse_range.1 "2.3" 2 3 0 [] (Or.inl rfl)
      (Or.inr (Or.inl ⟨['2'], ['3'], by decide, by decide, by decide, by decide,
        by decide, by decide⟩))
  · apply claim_C8_amended_parse_range.2
    intro a b c t ht h
    have hmem := PermissiveShape_chars h 'q' (by decide)
    rcases hmem with h1 | h1 | h1
    · rcases ht with rfl | rfl <;> exact absurd h1 (by decide)
    · exact absurd h1 (by decide)
    · exact absurd h1 (by decide)

/-! ## Concrete evaluations of the embedded code

Sanity checks that the embedding computes like the Python source on small
inputs (each verified against the behaviour of the original functions).
-/

example : SemVerExact.parse "1.0.0" = none := by decide

example : SemVerExact.parse "1.0.0-alpha" =
    some { major := 1, minor := 0, patch := 0, prerelease := [.str "alpha"],
           build_metadata := [""] } := by decide

example : SemVerExact.parse "1.2.3-rc.1+build.5" =
    some { major := 1, minor := 2, patch := 3,
           prerelease := [.str "rc", .num 1],
           build_metadata := ["build", "5"] } := by decide

example : SemVerExact.parse "1.0.0-.x" = none := by decide

example : SemVerExact.parse "01.2.3-a" =
    some { major := 1, minor := 2, patch := 3, prerelease := [.str "a"],
           build_metadata := [""] } := by decide

example : SemVerExact.parse "1.0.0-a\n" =
    some { major := 1, minor := 0, patch := 0, prerelease := [.str "a"],
           build_metadata := [""] } := by decide

example : semVerLt ⟨1, 0, 0, [], []⟩ ⟨2, 0, 0, [], []⟩ = true := by decide

example : semVerLt ⟨1, 0, 0, [.str "alpha"], []⟩ ⟨1, 0, 0, [], []⟩ = true := by decide

example : (SemVerExact.format ⟨1, 0, 0, [], []⟩) = "1.0.0" := by decide

example : (SemVerExact.format ⟨1, 0, 0, [.str "rc", .num 1], ["b"]⟩) = "1.0.0-rc.1+b" := by
  decide

example : SemVerRange.parse "2.3" = some ⟨⟨2, 3, 0, [], []⟩, ⟨3, 0, 0, [], []⟩⟩ := by decide

example : SemVerRange.parse "0.3" = some ⟨⟨0, 3, 0, [], []⟩, ⟨0, 4, 0, [], []⟩⟩ := by decide

example : SemVerRange.parse "5" = some ⟨⟨5, 0, 0, [], []⟩, ⟨6, 0, 0, [], []⟩⟩ := by decide

example : SemVerRange.parse "2.3\n" = some ⟨⟨2, 3, 0, [], []⟩, ⟨3, 0, 0, [], []⟩⟩ := by decide

example : SemVerRange.parse "2.3.4.5" = none := by decide

example : SemVerRange.parse "" = none := by decide

example : BlupkgDep.postInitOk { git := some "g", version := some "2.3" } = true := by decide

example : BlupkgDep.postInitOk { path := some "p", version := some "2.3" } = false := by decide

example : BlupkgDep.postInitOk { path := some "p" } = false := by decide

example : BlupkgDep.postInitOk { git := some "g" } = false := by decide

example : BlupkgDep.postInitOk { git := some "g", rev := some "r", tag := some "t" } = false := by
  decide

example : loadLockOutcome [("version", .int 1)] = .decoded := by decide

example : loadLockOutcome [("version", .int 2)] = .fatal := by decide

example : loadLockOutcome [("version", .int 0)] = .absent := by decide

example : loadLockOutcome [("version", .str "1")] = .decoded := by decide

example : loadLockOutcome [("version", .str "2")] = .fatal := by decide

example : loadLockOutcome [("version", .str "x")] = .absent := by decide

example : loadLockOutcome [("version", .bool true)] = .decoded := by decide

example : loadLockOutcome [("version", .arr [])] = .typeError := by decide

example : loadLockOutcome [("packages", .arr [])] = .absent := by decide
